import Mathlib

/-!
Verification development for the `elevationai/logging-ts` repository.

The development shallowly embeds the level-aware dispatch layer
(`src/src/logger.ts`, function `createLogMethod` and `wrapLogger`), the
internal diagnostic channel (`src/src/internal-logger.ts`), and the format
engine.  The format engine itself (`printf.ts`: `sprintf`, `toHex`) is not
present under `src/` — only its callers in `logger.ts` and its tests in
`tests/format.test.ts` are — so the parser / resolver / converter are
modelled from the specification (sections 4.1–4.4) and checked against the
concrete outputs asserted by `tests/format.test.ts`.
-/

namespace LoggingTS

/-- Severity levels of the log substrate (`LogLevels` of `@std/log`):
DEBUG = 10, INFO = 20, WARN = 30, ERROR = 40, CRITICAL = 50. -/
def levelDebug : Nat := 10

/-- INFO severity (20). -/
def levelInfo : Nat := 20

/-- WARN severity (30). -/
def levelWarn : Nat := 30

/-- ERROR severity (40). -/
def levelError : Nat := 40

/-- CRITICAL severity (50). -/
def levelCritical : Nat := 50

/-- A resolved (first-order) argument value, the relevant fragment of the
JavaScript value universe: strings, integers, booleans, byte sequences and
null/undefined. -/
inductive SVal
  | str (s : String)
  | int (n : Int)
  | bool (b : Bool)
  | bytes (bs : List Nat)
  | null
deriving DecidableEq

/-- `true` exactly when the value is a string. -/
def SVal.isStr : SVal → Bool
  | SVal.str _ => true
  | _ => false

/-- Outcome of invoking a zero-argument callable: it returns a value or it
throws with a message. -/
inductive LazyRes
  | ok (v : SVal)
  | thrown (e : String)
deriving DecidableEq

/-- An argument of a severity-method call.  A `lazy` argument models a
zero-argument callable (a LazyArgument): `i` identifies the callable so
invocations can be counted, and `result` is what invoking it does —
either return a value or throw with a message. -/
inductive Arg
  | direct (v : SVal)
  | lazy (i : Nat) (result : LazyRes)
deriving DecidableEq

/-- Channel a diagnostic entry is routed through. -/
inductive Chan
  /-- Through the same wrapped logger's own severity methods
  (e.g. the `logger.error` call made for a failing lazy argument). -/
  | selfLogger
  /-- The library's internal error channel
  (`internalError` of `src/src/internal-logger.ts`). -/
  | internal
  /-- The process default logger (`getStdLogger()` in the catch branch of
  `createLogMethod`). -/
  | stdDefault
deriving DecidableEq

/-- An observable effect of a severity-method call, in order of occurrence:
invoking a lazy callable, emitting a diagnostic entry on some channel, or
calling the captured underlying emit method.  `raw` of `emit` is the extra
argument list forwarded to the substrate method — empty except on the
sprintf-failure fallback path, which calls `logMethod(msg, ...args)`. -/
inductive Effect
  | invoke (i : Nat)
  | diag (ch : Chan) (lvl : Nat) (msg : String)
  | emit (lvl : Nat) (msg : String) (raw : List Arg)
deriving DecidableEq

/-- `internalError` of `src/src/internal-logger.ts`: routes a message to the
library's own error channel. -/
def internalError (msg : String) : Effect :=
  Effect.diag Chan.internal levelError msg

/-- The ids of the invoke effects of a trace, in order. -/
def invokes (t : List Effect) : List Nat :=
  t.filterMap fun e =>
    match e with
    | Effect.invoke i => some i
    | _ => none

/-- The ids of the lazy (callable) arguments of an argument list, in order. -/
def lazyIds (args : List Arg) : List Nat :=
  args.filterMap fun a =>
    match a with
    | Arg.lazy i _ => some i
    | _ => none

/-! ### Format parser

Modelled from the spec: the Format Parser of §4.2 (the implementation lives
in the absent `printf.ts`).  A conversion sequence is `%`, zero or more flag
characters, an optional width (digits or `*`), an optional precision
(`.` then digits or `*`), then one conversion letter from the closed set.
Any `%` not matching the grammar degrades to literal text. -/

/-- The flag characters: space, zero-pad, left-align, force-sign,
alternate-form. -/
def flagChars : List Char := [' ', '0', '-', '+', '#']

/-- The closed set of conversion letters (§3 of the spec). -/
def convLetters : List Char :=
  ['s', 'd', 'i', 'f', 'e', 'E', 'g', 'G', 't', 'b', 'o', 'x', 'X',
   'j', 'h', 'H', 'w', 'v', 'T', 'c', '%']

/-- A width or precision field: absent, an explicit number, or the `*`
read-next-argument marker. -/
inductive WP
  | none
  | num (n : Nat)
  | star
deriving DecidableEq

/-- One parsed conversion directive.  `raw` is the exact matched source text
(used to render the directive back as literal text when arguments run out). -/
structure ConvSpec where
  flags : List Char
  width : WP
  prec : WP
  letter : Char
  raw : String
deriving DecidableEq

/-- A token of the parsed format string. -/
inductive Token
  | lit (s : String)
  | conv (sp : ConvSpec)
deriving DecidableEq

/-- Numeric value of a digit-character run. -/
def digitsVal (cs : List Char) : Nat :=
  cs.foldl (fun acc c => 10 * acc + (c.toNat - 48)) 0

/-- Try to parse one conversion directive from the characters following a
`%`.  On success returns the directive and the number of characters
consumed (the `%` itself not counted). -/
def parseConv (cs : List Char) : Option (ConvSpec × Nat) :=
  let fl := cs.takeWhile fun c => flagChars.contains c
  let r1 := cs.drop fl.length
  let wres : WP × Nat :=
    match r1 with
    | '*' :: _ => (WP.star, 1)
    | _ =>
      let ds := r1.takeWhile Char.isDigit
      if ds.isEmpty then (WP.none, 0) else (WP.num (digitsVal ds), ds.length)
  let r2 := r1.drop wres.2
  let pres : Option (WP × Nat) :=
    match r2 with
    | '.' :: '*' :: _ => some (WP.star, 2)
    | '.' :: rest2 =>
      let ds := rest2.takeWhile Char.isDigit
      if ds.isEmpty then none else some (WP.num (digitsVal ds), ds.length + 1)
    | _ => some (WP.none, 0)
  match pres with
  | Option.none => Option.none
  | Option.some pr =>
    let r3 := r2.drop pr.2
    match r3 with
    | c :: _ =>
      if convLetters.contains c then
        let consumed := fl.length + wres.2 + pr.2 + 1
        Option.some
          ({ flags := fl, width := wres.1, prec := pr.1, letter := c,
             raw := String.mk ('%' :: cs.take consumed) }, consumed)
      else Option.none
    | [] => Option.none

/-- Scanner loop: `fuel` is structural fuel (one unit per input character is
always enough since every step consumes at least one character), `cs` the
remaining input and `acc` the pending literal characters in reverse.  An
unparseable `%` is kept as literal text. -/
def scanF : Nat → List Char → List Char → List Token
  | 0, cs, acc =>
    if cs.isEmpty && acc.isEmpty then [] else [Token.lit (String.mk (acc.reverse ++ cs))]
  | Nat.succ _, [], acc =>
    if acc.isEmpty then [] else [Token.lit (String.mk acc.reverse)]
  | Nat.succ fuel, c :: rest, acc =>
    if c = '%' then
      match parseConv rest with
      | Option.some sc =>
        let toks := Token.conv sc.1 :: scanF fuel (rest.drop sc.2) []
        if acc.isEmpty then toks else Token.lit (String.mk acc.reverse) :: toks
      | Option.none => scanF fuel rest (c :: acc)
    else scanF fuel rest (c :: acc)

/-- `parse(formatString) -> Token[]` of spec §4.2.  An empty format string
yields one empty literal token. -/
def parse (s : String) : List Token :=
  match scanF (s.data.length + 1) s.data [] with
  | [] => [Token.lit ""]
  | ts => ts

/-! ### Value converter

Modelled from the spec: the Value Converter of §4.1 (implementation in the
absent `printf.ts`), restricted to the conversions the claims exercise
(`%s` type checking, `%h`/`%H` byte-hex with space flag and max-byte
precision, and simple renderings for `d`/`i`/`t`/`j`); remaining letters and
the width field fall back to the value's generic string form, which no claim
depends on. -/

/-- One hex digit, lowercase or uppercase. -/
def hexDigit (upper : Bool) (n : Nat) : Char :=
  if n < 10 then Char.ofNat (48 + n)
  else if upper then Char.ofNat (55 + n) else Char.ofNat (87 + n)

/-- One byte as two hex digits (`b.toString(16).padStart(2, "0")`). -/
def hexByte (upper : Bool) (b : Nat) : String :=
  String.mk [hexDigit upper (b / 16 % 16), hexDigit upper (b % 16)]

/-- A byte sequence encoded two-hex-digits-per-byte, joined by `sep`. -/
def hexJoin (upper : Bool) (sep : String) (bs : List Nat) : String :=
  String.intercalate sep (bs.map (hexByte upper))

/-- Generic textual form of a value (JavaScript `String(v)`). -/
def svalText : SVal → String
  | SVal.str s => s
  | SVal.int n => toString n
  | SVal.bool b => if b then "true" else "false"
  | SVal.bytes bs => String.intercalate "," (bs.map toString)
  | SVal.null => "null"

/-- JavaScript `typeof` name of a value (`typeof null` is `"object"`). -/
def typeofName : SVal → String
  | SVal.str _ => "string"
  | SVal.int _ => "number"
  | SVal.bool _ => "boolean"
  | SVal.bytes _ => "object"
  | SVal.null => "object"

/-- The conversion suggested by the `%s` mismatch diagnostic for each
received type (README table of the repository). -/
def convSuggestion : SVal → String
  | SVal.int _ => "use %d for integers or %f for floats"
  | SVal.bool _ => "use %t for booleans"
  | SVal.bytes _ => "use %j for JSON or %i for inspect"
  | SVal.null => "use %v for default formatting"
  | SVal.str _ => ""

/-- The `%s` type-mismatch diagnostic text: received type plus suggested
conversion. -/
def sMismatchMsg (v : SVal) : String :=
  "%s format specifier received " ++ typeofName v ++ " instead of string: "
    ++ convSuggestion v

/-- String surrounded by JSON quotes. -/
def jquote (s : String) : String := "\"" ++ s ++ "\""

/-- Simple JSON form of a first-order value (`%j` on object graphs is
modelled separately). -/
def jsonText : SVal → String
  | SVal.str s => jquote s
  | SVal.int n => toString n
  | SVal.bool b => if b then "true" else "false"
  | SVal.bytes bs => "[" ++ String.intercalate "," (bs.map toString) ++ "]"
  | SVal.null => "null"

/-- The `%h`/`%H` byte-hex conversion: two hex digits per byte, lowercase for
`h` and uppercase for `H`; the space flag joins bytes with a single space;
precision is a maximum byte count and excess bytes are replaced by the
trailing marker `... [<n> more bytes]` with `<n>` the omitted count; without
precision everything is rendered.  Non-byte input degrades to the generic
string form. -/
def hexConv (upper : Bool) (sp : ConvSpec) (v : SVal) : String × List Effect :=
  match v with
  | SVal.bytes bs =>
    let sep := if ' ' ∈ sp.flags then " " else ""
    match sp.prec with
    | WP.num n =>
      if n < bs.length then
        (hexJoin upper sep (bs.take n) ++ sep ++ "... ["
          ++ toString (bs.length - n) ++ " more bytes]", [])
      else (hexJoin upper sep bs, [])
    | _ => (hexJoin upper sep bs, [])
  | _ => (svalText v, [])

/-- `convert(spec, value)` of spec §4.1: produce the rendered text plus any
diagnostic effects.  `%s` on a non-string substitutes the literal
placeholder `%s:arg_not_a_string` and emits one diagnostic on the internal
error channel; a conversion never raises. -/
def convert (sp : ConvSpec) (v : SVal) : String × List Effect :=
  if sp.letter = 's' then
    match v with
    | SVal.str s => (s, [])
    | _ => ("%s:arg_not_a_string", [internalError (sMismatchMsg v)])
  else if sp.letter = 'h' then hexConv false sp v
  else if sp.letter = 'H' then hexConv true sp v
  else if sp.letter = 'd' ∨ sp.letter = 'i' then (svalText v, [])
  else if sp.letter = 't' then (svalText v, [])
  else if sp.letter = 'j' then (jsonText v, [])
  else (svalText v, [])

/-! ### Argument resolver

Modelled from the spec: §4.3 and §3 — an argument that is a zero-argument
callable is invoked exactly once at resolution time; if invocation throws,
the fixed placeholder `[error evaluating lazy argument]` is substituted and
an error-severity diagnostic goes through the same logger's error path. -/

/-- The fixed placeholder substituted for a throwing lazy argument. -/
def lazyPlaceholder : String := "[error evaluating lazy argument]"

/-- The diagnostic text for a throwing lazy argument (as asserted by
`tests/format.test.ts`). -/
def lazyDiagMsg (e : String) : String := "Error evaluating lazy argument: " ++ e

/-- Resolve an argument list left to right: direct values pass through, lazy
callables are invoked once each; a throwing callable yields the placeholder
plus an error-severity diagnostic routed through the same logger. -/
def resolveArgs : List Arg → List SVal × List Effect
  | [] => ([], [])
  | Arg.direct v :: rest =>
    let r := resolveArgs rest
    (v :: r.1, r.2)
  | Arg.lazy i (LazyRes.ok v) :: rest =>
    let r := resolveArgs rest
    (v :: r.1, Effect.invoke i :: r.2)
  | Arg.lazy i (LazyRes.thrown e) :: rest =>
    let r := resolveArgs rest
    (SVal.str lazyPlaceholder :: r.1,
     Effect.invoke i :: Effect.diag Chan.selfLogger levelError (lazyDiagMsg e) :: r.2)

/-! ### Format engine -/

/-- Consume the extra argument demanded by a `*` width/precision marker. -/
def consumeStar : WP → List SVal → List SVal × Option SVal
  | WP.star, v :: vs => (vs, Option.some v)
  | WP.star, [] => ([], Option.none)
  | _, vs => (vs, Option.none)

/-- Effective width/precision after `*` indirection: a `*` marker becomes the
consumed integer argument (or absent when unusable). -/
def effWP : WP → Option SVal → WP
  | WP.star, Option.some (SVal.int n) => if 0 ≤ n then WP.num n.toNat else WP.none
  | WP.star, _ => WP.none
  | w, _ => w

/-- Walk the token sequence, consuming one resolved value per conversion
(plus `*` indirection), concatenating literal text and converted results.
A conversion with no argument left is rendered as its original literal
text (spec §4.3 graceful degradation); `%%` consumes nothing. -/
def renderToks : List Token → List SVal → String × List Effect
  | [], _ => ("", [])
  | Token.lit t :: rest, vals =>
    let r := renderToks rest vals
    (t ++ r.1, r.2)
  | Token.conv sp :: rest, vals =>
    if sp.letter = '%' then
      let r := renderToks rest vals
      ("%" ++ r.1, r.2)
    else
      let w := consumeStar sp.width vals
      let q := consumeStar sp.prec w.1
      match q.1 with
      | [] =>
        let r := renderToks rest []
        (sp.raw ++ r.1, r.2)
      | v :: vs =>
        let sp2 : ConvSpec :=
          { sp with width := effWP sp.width w.2, prec := effWP sp.prec q.2 }
        let c := convert sp2 v
        let r := renderToks rest vs
        (c.1 ++ r.1, c.2 ++ r.2)

/-- `render(formatString, args)` of spec §4.4: parse, resolve the arguments
(invoking lazy callables), then convert; returns the rendered string and the
ordered effect trace (invocations and diagnostics). -/
def renderModel (msg : String) (args : List Arg) : String × List Effect :=
  let toks := parse msg
  let r := resolveArgs args
  let c := renderToks toks r.1
  (c.1, r.2 ++ c.2)

/-- The modelled `sprintf` as seen by the dispatch wrapper: a formatting
function that either returns the rendered string or throws.  The spec-level
engine never throws (§4.1–§4.4 no-throw contracts), so this instance always
returns `Except.ok`; the dispatch layer is nevertheless proved against an
arbitrary formatter. -/
def sprintfFmt (msg : String) (args : List Arg) : Except String String × List Effect :=
  let r := renderModel msg args
  (Except.ok r.1, r.2)

/-! ### Level-aware dispatch

Embedded from the source: `createLogMethod` of `src/src/logger.ts`
(lines 139–163). -/

/-- The observable state of a wrapped log-substrate logger: its minimum
severity and the minimum severities of its attached handlers. -/
structure LoggerState where
  level : Nat
  handlers : List Nat
deriving DecidableEq

/-- One severity-method call of the wrapper returned by `createLogMethod`,
parametric in the formatting function `fmt` (the wrapper treats `sprintf`
as a black box behind `try`/`catch`):
gate on the logger level, then on the handlers (`logger.level > level`
rejects; so does no handler with `h.level <= level`); a call with no extra
arguments emits the message verbatim; otherwise the formatted string is
emitted, and if formatting throws, a `sprintf failed` diagnostic goes to
the default logger at WARN and the raw message plus raw arguments are
forwarded to the captured underlying method. -/
def logCallWith (fmt : String → List Arg → Except String String × List Effect)
    (lg : LoggerState) (lvl : Nat) (msg : String) (args : List Arg) : List Effect :=
  if lvl < lg.level then []
  else if lg.handlers.any fun h => decide (h ≤ lvl) then
    if args.isEmpty then [Effect.emit lvl msg []]
    else
      let r := fmt msg args
      match r.1 with
      | Except.ok out => r.2 ++ [Effect.emit lvl out []]
      | Except.error e =>
        r.2 ++ [Effect.diag Chan.stdDefault levelWarn
                  ("sprintf failed: " ++ e ++ "; falling back to raw output"),
                Effect.emit lvl msg args]
  else []

/-- A severity-method call with the modelled format engine plugged in. -/
def logCall (lg : LoggerState) (lvl : Nat) (msg : String) (args : List Arg) :
    List Effect :=
  logCallWith sprintfFmt lg lvl msg args

/-! ### The wrapper installation (`wrapLogger` of `src/src/logger.ts`)

`wrapLogger` casts the substrate logger object itself to `ExtendedLogger`
(`const extLogger = logger as unknown as ExtendedLogger`) and assigns the
severity methods onto it; `createLogMethod` first captures the current bound
method (`logger[methodName].bind(logger)` — "Capture before it gets
wrapped").  The embedding records the state of the object's method table,
so applying `wrapLogger` yields the post-assignment state of the same
object. -/

/-- A severity-method slot of a logger object: either the substrate's
built-in method or a `createLogMethod` wrapper holding the bound method it
captured. -/
inductive MethodImpl
  | base (lvl : Nat)
  | wrapped (lvl : Nat) (captured : MethodImpl)
deriving DecidableEq

/-- The method table and gate state of a substrate logger object. -/
structure LoggerObj where
  level : Nat
  handlers : List Nat
  debugM : MethodImpl
  infoM : MethodImpl
  warnM : MethodImpl
  errorM : MethodImpl
  criticalM : MethodImpl
deriving DecidableEq

/-- `createLogMethod(logger, level)` as a method-table value: it captures the
logger's current method for `level` and returns a wrapper around it. -/
def createLogMethodM (current : MethodImpl) (lvl : Nat) : MethodImpl :=
  MethodImpl.wrapped lvl current

/-- `wrapLogger(logger)` of `src/src/logger.ts` (lines 219–231): the state of
the logger object after the five severity assignments (each wrapper captured
its slot's previous bound method before that slot was reassigned). -/
def wrapLogger (lg : LoggerObj) : LoggerObj :=
  { lg with
    debugM := createLogMethodM lg.debugM levelDebug
    infoM := createLogMethodM lg.infoM levelInfo
    warnM := createLogMethodM lg.warnM levelWarn
    errorM := createLogMethodM lg.errorM levelError
    criticalM := createLogMethodM lg.criticalM levelCritical }

/-! ### Legacy hex helper (`toHexCompact` of `src/unnamed/part_001`)

An earlier variant of `logger.ts` kept in the repository implements `%h`
truncation with a different trailing marker.  Embedded for reference; the
current test suite (`tests/format.test.ts`) asserts the marker of the
modelled `hexConv` above instead. -/

/-- `toHexCompact(data, maxBytes)` of `src/unnamed/part_001` (lines 32–54) on
a byte list: lowercase two-digit hex without separator, truncated at
`maxBytes` with the trailing marker `... [truncated, <n> more bytes]`. -/
def toHexCompactLegacy (bs : List Nat) (maxBytes : Option Nat) : String :=
  match maxBytes with
  | Option.some n =>
    if n < bs.length then
      hexJoin false "" (bs.take n)
        ++ "... [truncated, " ++ toString (bs.length - n) ++ " more bytes]"
    else hexJoin false "" bs
  | Option.none => hexJoin false "" bs

/-! ### `%j` on object graphs

Modelled from the spec: §4.1 (`j`) — a self-referential or
mutually-referential object graph is detected via a visited-set walk and any
back-edge is replaced with the literal marker `[Circular]`, serialization
still completes.  A graph is a list of nodes (field lists) addressed by
index; the walker carries the set of indices not on the current path and a
structural fuel, and the fuel bound `graphWeight` is proved sufficient, so
the walk never hits the fuel-exhaustion marker: the claimed termination. -/

/-- A field value of an object-graph node: a primitive or a reference to
another node. -/
inductive GVal
  | str (s : String)
  | num (n : Int)
  | ref (j : Nat)
deriving DecidableEq

/-- An output fragment of the serializer: literal text, the `[Circular]`
back-edge marker, or the fuel-exhaustion marker (proved unreachable). -/
inductive JTok
  | text (s : String)
  | circ
  | truncated
deriving DecidableEq

/-- Work item of the serializer: a value, or a node's remaining field list
(`first` tracks whether a separating comma is due). -/
inductive SerIn
  | val (v : GVal)
  | flds (fs : List (String × GVal)) (first : Bool)
deriving DecidableEq

/-- The visited-set serialization walk.  `allowed` holds the node indices not
on the current path: a reference to a node off the list is a back-edge and
becomes the `[Circular]` marker; descending into a node removes it from
`allowed`. -/
def serF : Nat → List (List (String × GVal)) → List Nat → SerIn → List JTok
  | 0, _, _, _ => [JTok.truncated]
  | Nat.succ _, _, _, SerIn.val (GVal.str s) => [JTok.text (jquote s)]
  | Nat.succ _, _, _, SerIn.val (GVal.num n) => [JTok.text (toString n)]
  | Nat.succ fuel, g, allowed, SerIn.val (GVal.ref j) =>
    if j ∈ allowed then
      match g[j]? with
      | Option.none => [JTok.text "null"]
      | Option.some nd =>
        JTok.text "\x7b" :: (serF fuel g (allowed.erase j) (SerIn.flds nd true)
          ++ [JTok.text "\x7d"])
    else [JTok.circ]
  | Nat.succ _, _, _, SerIn.flds [] _ => []
  | Nat.succ fuel, g, allowed, SerIn.flds ((k, v) :: rest) first =>
    (if first then [] else [JTok.text ","])
      ++ (JTok.text (jquote k ++ ":") :: serF fuel g allowed (SerIn.val v))
      ++ serF fuel g allowed (SerIn.flds rest false)

/-- The back-edge count of the same walk: references to nodes on the current
path, counted in traversal order. -/
def beF : Nat → List (List (String × GVal)) → List Nat → SerIn → Nat
  | 0, _, _, _ => 0
  | Nat.succ _, _, _, SerIn.val (GVal.str _) => 0
  | Nat.succ _, _, _, SerIn.val (GVal.num _) => 0
  | Nat.succ fuel, g, allowed, SerIn.val (GVal.ref j) =>
    if j ∈ allowed then
      match g[j]? with
      | Option.none => 0
      | Option.some nd => beF fuel g (allowed.erase j) (SerIn.flds nd true)
    else 1
  | Nat.succ _, _, _, SerIn.flds [] _ => 0
  | Nat.succ fuel, g, allowed, SerIn.flds ((_, v) :: rest) _ =>
    beF fuel g allowed (SerIn.val v) + beF fuel g allowed (SerIn.flds rest false)

/-- Fuel weight of one node for the sufficiency bound. -/
def nodeWeight (g : List (List (String × GVal))) (j : Nat) : Nat :=
  match g[j]? with
  | Option.some nd => 2 + 2 * nd.length
  | Option.none => 1

/-- Fuel weight of the not-yet-visited nodes. -/
def gsize (g : List (List (String × GVal))) (allowed : List Nat) : Nat :=
  (allowed.map (nodeWeight g)).sum

/-- Fuel weight of the current work item. -/
def localWeight : SerIn → Nat
  | SerIn.val _ => 1
  | SerIn.flds fs _ => 1 + 2 * fs.length

/-- The serializer's token output for a whole graph, from node `root`, at the
provably sufficient fuel. -/
def serTokens (g : List (List (String × GVal))) (root : Nat) : List JTok :=
  serF (gsize g (List.range g.length) + 1) g (List.range g.length)
    (SerIn.val (GVal.ref root))

/-- The number of back-edges of the rooted walk. -/
def backEdges (g : List (List (String × GVal))) (root : Nat) : Nat :=
  beF (gsize g (List.range g.length) + 1) g (List.range g.length)
    (SerIn.val (GVal.ref root))

/-- Rendered form of a serializer fragment. -/
def jtokText : JTok → String
  | JTok.text s => s
  | JTok.circ => jquote "[Circular]"
  | JTok.truncated => "[depth exceeded]"

/-- `%j` serialization of a rooted object graph as a string. -/
def serializeGraph (g : List (List (String × GVal))) (root : Nat) : String :=
  String.join ((serTokens g root).map jtokText)

/-! ## Helper lemmas -/

theorem invokes_append (t1 t2 : List Effect) :
    invokes (t1 ++ t2) = invokes t1 ++ invokes t2 :=
  List.filterMap_append t1 t2 _

theorem invokes_resolveArgs (args : List Arg) :
    invokes (resolveArgs args).2 = lazyIds args := by
  induction args with
  | nil => rfl
  | cons a rest ih =>
    cases a with
    | direct v =>
      simpa [resolveArgs, lazyIds, List.filterMap_cons] using ih
    | lazy i res =>
      cases res with
      | ok v =>
        simpa [resolveArgs, invokes, lazyIds, List.filterMap_cons] using ih
      | thrown e =>
        simpa [resolveArgs, invokes, lazyIds, List.filterMap_cons] using ih

theorem hexConv_snd (upper : Bool) (sp : ConvSpec) (v : SVal) :
    (hexConv upper sp v).2 = [] := by
  unfold hexConv
  cases v <;> try rfl
  case bytes bs =>
    cases sp.prec <;> try rfl
    case num n =>
      by_cases h : n < bs.length <;> simp [h]

theorem convert_no_invoke (sp : ConvSpec) (v : SVal) :
    invokes (convert sp v).2 = [] := by
  unfold convert
  split_ifs
  · cases v <;> simp [invokes, internalError]
  · rw [hexConv_snd]; rfl
  · rw [hexConv_snd]; rfl
  all_goals rfl

theorem renderToks_no_invoke (toks : List Token) (vals : List SVal) :
    invokes (renderToks toks vals).2 = [] := by
  induction toks generalizing vals with
  | nil => rfl
  | cons t rest ih =>
    cases t with
    | lit s => simpa [renderToks] using ih vals
    | conv sp =>
      by_cases hL : sp.letter = '%'
      · simpa [renderToks, hL] using ih vals
      · rcases hq : (consumeStar sp.prec (consumeStar sp.width vals).1).1 with _ | ⟨v, vs⟩
        · simpa [renderToks, hL, hq] using ih []
        · simp [renderToks, hL, hq, invokes_append, convert_no_invoke, ih vs]

/-! ## Claims -/

/-- C1: for every severity-method call on a wrapped logger, if the logger's
minimum severity exceeds the call's severity, or no attached handler has a
minimum severity at or below the call's severity, then the call performs no
formatting and no emit — the effect trace is empty for every formatting
function, so in particular every lazy argument is invoked zero times. -/
theorem claim1_gate_rejects_all_work
    (fmt : String → List Arg → Except String String × List Effect)
    (lg : LoggerState) (lvl : Nat) (msg : String) (args : List Arg)
    (hgate : lvl < lg.level ∨ ∀ h ∈ lg.handlers, lvl < h) :
    logCallWith fmt lg lvl msg args = [] := by
  unfold logCallWith
  by_cases h1 : lvl < lg.level
  · simp [h1]
  · rcases hgate with hg | hg
    · exact absurd hg h1
    · have h2 : (lg.handlers.any fun h => decide (h ≤ lvl)) = false := by
        rw [List.any_eq_false]
        intro x hx
        simpa using Nat.not_le.mpr (hg x hx)
      simp [h1, h2]

/-- Witness for C1: a DEBUG call on a logger at DEBUG whose handlers sit at
INFO and WARN produces no effects at all, lazy argument included. -/
theorem claim1_witness :
    logCallWith sprintfFmt ⟨levelDebug, [levelInfo, levelWarn]⟩ levelDebug
      "bytes: %s" [Arg.lazy 7 (LazyRes.ok (SVal.str "deadbeef"))] = [] :=
  claim1_gate_rejects_all_work sprintfFmt ⟨levelDebug, [levelInfo, levelWarn]⟩
    levelDebug "bytes: %s" [Arg.lazy 7 (LazyRes.ok (SVal.str "deadbeef"))]
    (Or.inr (by decide))

/-- C2: a severity-method call never propagates a formatting failure: for
every formatting function, whenever it throws, the call appends exactly a
`sprintf failed` diagnostic (default logger, WARN) and a fallback emit
carrying the raw format string together with the complete raw argument
list — the call itself is total, so it cannot abort the caller. -/
theorem claim2_formatting_failure_fallback
    (fmt : String → List Arg → Except String String × List Effect)
    (lg : LoggerState) (lvl : Nat) (msg : String) (args : List Arg)
    (e : String) (effs : List Effect)
    (hlv : lg.level ≤ lvl)
    (hh : (lg.handlers.any fun h => decide (h ≤ lvl)) = true)
    (hargs : args ≠ [])
    (hfmt : fmt msg args = (Except.error e, effs)) :
    logCallWith fmt lg lvl msg args =
      effs ++ [Effect.diag Chan.stdDefault levelWarn
                 ("sprintf failed: " ++ e ++ "; falling back to raw output"),
               Effect.emit lvl msg args] := by
  have h1 : ¬ lvl < lg.level := Nat.not_lt.mpr hlv
  have he : args.isEmpty = false := by
    cases args with
    | nil => exact absurd rfl hargs
    | cons a rest => rfl
  unfold logCallWith
  simp [h1, hh, he, hfmt]

/-- A formatting function that always throws, to exercise the fallback. -/
def failFmt : String → List Arg → Except String String × List Effect :=
  fun _ _ => (Except.error "boom", [])

/-- Witness for C2: with a throwing formatter the call emits the diagnostic
and then the raw message with the raw arguments. -/
theorem claim2_witness :
    logCallWith failFmt ⟨levelDebug, [levelDebug]⟩ levelInfo "count: %d"
      [Arg.direct (SVal.int 3)] =
      [Effect.diag Chan.stdDefault levelWarn
         "sprintf failed: boom; falling back to raw output",
       Effect.emit levelInfo "count: %d" [Arg.direct (SVal.int 3)]] :=
  claim2_formatting_failure_fallback failFmt ⟨levelDebug, [levelDebug]⟩ levelInfo
    "count: %d" [Arg.direct (SVal.int 3)] "boom" []
    (by decide) (by decide) (by decide) rfl

/-- C3: for every log call that passes the gate, the sequence of lazy-callable
invocations performed by the call equals the sequence of lazy argument ids in
left-to-right argument order — so each zero-argument callable among the
arguments is invoked exactly once, in order. -/
theorem claim3_lazy_invoked_once_in_order
    (lg : LoggerState) (lvl : Nat) (msg : String) (args : List Arg)
    (hlv : lg.level ≤ lvl)
    (hh : (lg.handlers.any fun h => decide (h ≤ lvl)) = true) :
    invokes (logCall lg lvl msg args) = lazyIds args := by
  have h1 : ¬ lvl < lg.level := Nat.not_lt.mpr hlv
  unfold logCall logCallWith
  simp only [h1, hh, if_true, if_false, ite_false, ite_true]
  by_cases he : args.isEmpty
  · have hnil : args = [] := List.isEmpty_iff.mp he
    subst hnil
    simp [invokes, lazyIds]
  · simp only [he, ite_false, Bool.false_eq_true]
    unfold sprintfFmt renderModel
    simp only []
    rw [invokes_append, invokes_append, invokes_resolveArgs, renderToks_no_invoke]
    simp [invokes]

/-- Witness for C3: an INFO call on a DEBUG handler invokes the three lazy
arguments once each, left to right. -/
theorem claim3_witness :
    invokes (logCall ⟨levelDebug, [levelDebug]⟩ levelInfo
      "%s is %d years old from %s"
      [Arg.lazy 1 (LazyRes.ok (SVal.str "Bob")),
       Arg.lazy 2 (LazyRes.ok (SVal.int 30)),
       Arg.lazy 3 (LazyRes.ok (SVal.str "NYC"))]) = [1, 2, 3] :=
  (claim3_lazy_invoked_once_in_order ⟨levelDebug, [levelDebug]⟩ levelInfo
      "%s is %d years old from %s"
      [Arg.lazy 1 (LazyRes.ok (SVal.str "Bob")),
       Arg.lazy 2 (LazyRes.ok (SVal.int 30)),
       Arg.lazy 3 (LazyRes.ok (SVal.str "NYC"))]
      (by decide) (by decide)).trans (by decide)

/-- Computation of the engine on a format string that parses to one literal
followed by one argument-consuming conversion, applied to one value. -/
theorem renderToks_lit_conv (p : String) (sp : ConvSpec) (v : SVal)
    (hL : sp.letter ≠ '%') (hw : sp.width = WP.none) (hq : sp.prec ≠ WP.star) :
    renderToks [Token.lit p, Token.conv sp] [v] =
      (p ++ (convert sp v).1, (convert sp v).2) := by
  have hw2 : consumeStar sp.width [v] = ([v], Option.none) := by
    rw [hw]; rfl
  have hq2 : consumeStar sp.prec [v] = ([v], Option.none) := by
    rcases h : sp.prec with _ | n | _
    · rfl
    · rfl
    · exact absurd h hq
  have he1 : effWP sp.width Option.none = sp.width := by
    rw [hw]; rfl
  have he2 : effWP sp.prec Option.none = sp.prec := by
    rcases h : sp.prec with _ | n | _
    · rfl
    · rfl
    · exact absurd h hq
  simp only [renderToks, hL, ite_false, if_false]
  rw [hw2, hq2]
  simp only [he1, he2]
  simp [String.append_empty]

/-- C4: for a gate-passing call whose only argument is a lazy callable that
throws, the exception is absorbed: the callable is invoked, one
error-severity diagnostic describing the failure is routed through the same
logger's error path, and the emitted message substitutes the fixed
placeholder `[error evaluating lazy argument]` for the argument. -/
theorem claim4_lazy_throw_placeholder_and_diag
    (lg : LoggerState) (lvl : Nat) (msg p : String) (sp : ConvSpec)
    (i : Nat) (e : String)
    (hlv : lg.level ≤ lvl)
    (hh : (lg.handlers.any fun h => decide (h ≤ lvl)) = true)
    (hp : parse msg = [Token.lit p, Token.conv sp])
    (hs : sp.letter = 's') (hw : sp.width = WP.none) (hq : sp.prec ≠ WP.star) :
    logCall lg lvl msg [Arg.lazy i (LazyRes.thrown e)] =
      [Effect.invoke i,
       Effect.diag Chan.selfLogger levelError (lazyDiagMsg e),
       Effect.emit lvl (p ++ lazyPlaceholder) []] := by
  have h1 : ¬ lvl < lg.level := Nat.not_lt.mpr hlv
  have hres : resolveArgs [Arg.lazy i (LazyRes.thrown e)] =
      ([SVal.str lazyPlaceholder],
       [Effect.invoke i, Effect.diag Chan.selfLogger levelError (lazyDiagMsg e)]) := rfl
  have hc : convert sp (SVal.str lazyPlaceholder) = (lazyPlaceholder, []) := by
    unfold convert
    rw [if_pos hs]
  unfold logCall logCallWith sprintfFmt renderModel
  rw [hp, hres]
  simp only [h1, hh, if_true, if_false, ite_false, ite_true, List.isEmpty_cons]
  rw [renderToks_lit_conv p sp (SVal.str lazyPlaceholder) (by rw [hs]; decide) hw hq, hc]
  simp

/-- Witness for C4: the scenario of
`tests/format.test.ts` "lazy evaluation: function that throws is handled
gracefully" — the diagnostic entry precedes the emitted message with the
placeholder. -/
theorem claim4_witness :
    logCall ⟨levelDebug, [levelDebug]⟩ levelInfo "Result: %s"
      [Arg.lazy 3 (LazyRes.thrown "Intentional test error")] =
      [Effect.invoke 3,
       Effect.diag Chan.selfLogger levelError
         "Error evaluating lazy argument: Intentional test error",
       Effect.emit levelInfo "Result: [error evaluating lazy argument]" []] :=
  (claim4_lazy_throw_placeholder_and_diag ⟨levelDebug, [levelDebug]⟩ levelInfo
      "Result: %s" "Result: "
      ⟨[], WP.none, WP.none, 's', "%s"⟩ 3 "Intentional test error"
      (by decide) (by decide) (by decide) rfl rfl (by decide)).trans (by decide)

/-- The engine on one literal, one conversion and one direct argument. -/
theorem renderModel_one_direct (msg p : String) (sp : ConvSpec) (v : SVal)
    (hp : parse msg = [Token.lit p, Token.conv sp])
    (hL : sp.letter ≠ '%') (hw : sp.width = WP.none) (hq : sp.prec ≠ WP.star) :
    renderModel msg [Arg.direct v] =
      (p ++ (convert sp v).1, (convert sp v).2) := by
  have hres : resolveArgs [Arg.direct v] = ([v], []) := rfl
  unfold renderModel
  rw [hp, hres]
  dsimp only
  rw [renderToks_lit_conv p sp v hL hw hq]
  simp

/-- C5: rendering a byte sequence `b` with the `%h` conversion and a
max-byte precision `n < len(b)` yields exactly the first `n` bytes as two
lowercase hex digits each, followed by the trailing marker
`... [<len(b)-n> more bytes]` counting the omitted bytes; without a
precision every byte is rendered, with no truncation marker. -/
theorem claim5_hex_precision_truncation :
    (∀ (msg p : String) (sp : ConvSpec) (b : List Nat) (n : Nat),
        parse msg = [Token.lit p, Token.conv sp] →
        sp.letter = 'h' → sp.flags = [] → sp.width = WP.none → sp.prec = WP.num n →
        n < b.length →
        renderModel msg [Arg.direct (SVal.bytes b)] =
          (p ++ hexJoin false "" (b.take n) ++ "... ["
             ++ toString (b.length - n) ++ " more bytes]", []))
    ∧ (∀ (msg p : String) (sp : ConvSpec) (b : List Nat),
        parse msg = [Token.lit p, Token.conv sp] →
        sp.letter = 'h' → sp.flags = [] → sp.width = WP.none → sp.prec = WP.none →
        renderModel msg [Arg.direct (SVal.bytes b)] =
          (p ++ hexJoin false "" b, [])) := by
  constructor
  · intro msg p sp b n hp hs hf hw hq hn
    rw [renderModel_one_direct msg p sp (SVal.bytes b) hp (by rw [hs]; decide) hw
          (by rw [hq]; exact fun h => nomatch h)]
    have hc : convert sp (SVal.bytes b) =
        (hexJoin false "" (b.take n) ++ "" ++ "... ["
           ++ toString (b.length - n) ++ " more bytes]", []) := by
      unfold convert hexConv
      rw [if_neg (by rw [hs]; decide), if_pos hs, hf, hq]
      simp [hn]
    rw [hc]
    simp [String.append_assoc]
  · intro msg p sp b hp hs hf hw hq
    rw [renderModel_one_direct msg p sp (SVal.bytes b) hp (by rw [hs]; decide) hw
          (by rw [hq]; exact fun h => nomatch h)]
    have hc : convert sp (SVal.bytes b) = (hexJoin false "" b, []) := by
      unfold convert hexConv
      rw [if_neg (by rw [hs]; decide), if_pos hs, hf, hq]
      simp
    rw [hc]

/-- Witness for C5: `%.4h` on eight bytes renders four encoded bytes plus
the `... [4 more bytes]` marker; `%h` without precision renders everything. -/
theorem claim5_witness :
    renderModel "Truncated: %.4h" [Arg.direct (SVal.bytes [1, 2, 3, 4, 5, 6, 7, 8])] =
        ("Truncated: 01020304... [4 more bytes]", [])
    ∧ renderModel "Full: %h" [Arg.direct (SVal.bytes [222, 173])] = ("Full: dead", []) :=
  ⟨(claim5_hex_precision_truncation.1 "Truncated: %.4h" "Truncated: "
      ⟨[], WP.none, WP.num 4, 'h', "%.4h"⟩ [1, 2, 3, 4, 5, 6, 7, 8] 4
      (by decide) rfl rfl rfl rfl (by decide)).trans (by decide),
   (claim5_hex_precision_truncation.2 "Full: %h" "Full: "
      ⟨[], WP.none, WP.none, 'h', "%h"⟩ [222, 173]
      (by decide) rfl rfl rfl rfl).trans (by decide)⟩

/-- C6: `%h` renders each byte as two lowercase hex digits with no
separator, `%H` renders two uppercase digits per byte, and the space flag
selects the spaced form joining bytes with a single space. -/
theorem claim6_hex_case_and_spacing :
    (∀ (msg p : String) (sp : ConvSpec) (b : List Nat),
        parse msg = [Token.lit p, Token.conv sp] →
        sp.letter = 'h' → sp.flags = [] → sp.width = WP.none → sp.prec = WP.none →
        renderModel msg [Arg.direct (SVal.bytes b)] = (p ++ hexJoin false "" b, []))
    ∧ (∀ (msg p : String) (sp : ConvSpec) (b : List Nat),
        parse msg = [Token.lit p, Token.conv sp] →
        sp.letter = 'H' → sp.flags = [] → sp.width = WP.none → sp.prec = WP.none →
        renderModel msg [Arg.direct (SVal.bytes b)] = (p ++ hexJoin true "" b, []))
    ∧ (∀ (msg p : String) (sp : ConvSpec) (b : List Nat),
        parse msg = [Token.lit p, Token.conv sp] →
        sp.letter = 'h' → sp.flags = [' '] → sp.width = WP.none → sp.prec = WP.none →
        renderModel msg [Arg.direct (SVal.bytes b)] = (p ++ hexJoin false " " b, [])) := by
  refine ⟨?_, ?_, ?_⟩
  · intro msg p sp b hp hs hf hw hq
    rw [renderModel_one_direct msg p sp (SVal.bytes b) hp (by rw [hs]; decide) hw
          (by rw [hq]; exact fun h => nomatch h)]
    have hc : convert sp (SVal.bytes b) = (hexJoin false "" b, []) := by
      unfold convert hexConv
      rw [if_neg (by rw [hs]; decide), if_pos hs, hf, hq]
      simp
    rw [hc]
  · intro msg p sp b hp hs hf hw hq
    rw [renderModel_one_direct msg p sp (SVal.bytes b) hp (by rw [hs]; decide) hw
          (by rw [hq]; exact fun h => nomatch h)]
    have hc : convert sp (SVal.bytes b) = (hexJoin true "" b, []) := by
      unfold convert hexConv
      rw [if_neg (by rw [hs]; decide), if_neg (by rw [hs]; decide), if_pos hs, hf, hq]
      simp
    rw [hc]
  · intro msg p sp b hp hs hf hw hq
    rw [renderModel_one_direct msg p sp (SVal.bytes b) hp (by rw [hs]; decide) hw
          (by rw [hq]; exact fun h => nomatch h)]
    have hc : convert sp (SVal.bytes b) = (hexJoin false " " b, []) := by
      unfold convert hexConv
      rw [if_neg (by rw [hs]; decide), if_pos hs, hf, hq]
      simp
    rw [hc]

/-- Witness for C6: the spec's scenario on bytes `[0xde, 0xad, 0xbe, 0xef]` —
`%h` gives `deadbeef`, `%H` gives `DEADBEEF`, and `% h` gives
`de ad be ef`. -/
theorem claim6_witness :
    renderModel "Data: %h" [Arg.direct (SVal.bytes [222, 173, 190, 239])] =
        ("Data: deadbeef", [])
    ∧ renderModel "Data: %H" [Arg.direct (SVal.bytes [222, 173, 190, 239])] =
        ("Data: DEADBEEF", [])
    ∧ renderModel "Data: % h" [Arg.direct (SVal.bytes [222, 173, 190, 239])] =
        ("Data: de ad be ef", []) :=
  ⟨(claim6_hex_case_and_spacing.1 "Data: %h" "Data: "
      ⟨[], WP.none, WP.none, 'h', "%h"⟩ [222, 173, 190, 239]
      (by decide) rfl rfl rfl rfl).trans (by decide),
   (claim6_hex_case_and_spacing.2.1 "Data: %H" "Data: "
      ⟨[], WP.none, WP.none, 'H', "%H"⟩ [222, 173, 190, 239]
      (by decide) rfl rfl rfl rfl).trans (by decide),
   (claim6_hex_case_and_spacing.2.2 "Data: % h" "Data: "
      ⟨[' '], WP.none, WP.none, 'h', "% h"⟩ [222, 173, 190, 239]
      (by decide) rfl rfl rfl rfl).trans (by decide)⟩

/-- C7: `%s` applied to a non-string argument substitutes the literal
placeholder `%s:arg_not_a_string` in the rendered output, throws nothing,
and emits exactly one diagnostic — describing the received type and
suggesting the correct conversion — on the library's internal error
channel. -/
theorem claim7_s_non_string (msg p : String) (sp : ConvSpec) (v : SVal)
    (hp : parse msg = [Token.lit p, Token.conv sp])
    (hs : sp.letter = 's') (hw : sp.width = WP.none) (hq : sp.prec ≠ WP.star)
    (hv : v.isStr = false) :
    renderModel msg [Arg.direct v] =
      (p ++ "%s:arg_not_a_string", [internalError (sMismatchMsg v)]) := by
  have hres : resolveArgs [Arg.direct v] = ([v], []) := rfl
  have hc : convert sp v = ("%s:arg_not_a_string", [internalError (sMismatchMsg v)]) := by
    unfold convert
    rw [if_pos hs]
    cases v <;> simp_all [SVal.isStr]
  unfold renderModel
  rw [hp, hres]
  dsimp only
  rw [renderToks_lit_conv p sp v (by rw [hs]; decide) hw hq, hc]
  simp

/-- Witness for C7: `%s` given the number 1006 (README scenario) renders the
placeholder and produces exactly the documented diagnostic. -/
theorem claim7_witness :
    renderModel "Code: %s" [Arg.direct (SVal.int 1006)] =
      ("Code: %s:arg_not_a_string",
       [Effect.diag Chan.internal levelError
          "%s format specifier received number instead of string: use %d for integers or %f for floats"]) :=
  (claim7_s_non_string "Code: %s" "Code: " ⟨[], WP.none, WP.none, 's', "%s"⟩
      (SVal.int 1006) (by decide) rfl rfl (by decide) rfl).trans (by decide)

/-- The scanner on percent-free input accumulates one literal token. -/
theorem scanF_no_pct :
    ∀ (fuel : Nat) (cs acc : List Char), cs.length < fuel →
      (∀ c ∈ cs, c ≠ '%') →
      scanF fuel cs acc =
        if (acc.reverse ++ cs).isEmpty then []
        else [Token.lit (String.mk (acc.reverse ++ cs))] := by
  intro fuel
  induction fuel with
  | zero =>
    intro cs acc hlen
    omega
  | succ fuel ih =>
    intro cs acc hlen hcs
    cases cs with
    | nil => simp [scanF]
    | cons c rest =>
      have hc : c ≠ '%' := hcs c (by simp)
      have hrest : ∀ x ∈ rest, x ≠ '%' := fun x hx => hcs x (by simp [hx])
      have hlen2 : rest.length < fuel := by
        simp at hlen
        omega
      rw [show scanF (Nat.succ fuel) (c :: rest) acc = scanF fuel rest (c :: acc) by
            simp [scanF, hc]]
      rw [ih rest (c :: acc) hlen2 hrest]
      simp

/-- A format string with no `%` parses to the single literal token holding
the string itself. -/
theorem parse_no_pct (s : String) (hs : ∀ c ∈ s.data, c ≠ '%') :
    parse s = [Token.lit s] := by
  obtain ⟨data⟩ := s
  unfold parse
  rw [scanF_no_pct (data.length + 1) data [] (by omega) hs]
  cases data with
  | nil => rfl
  | cons c rest => simp

/-- C9: a severity-method call with zero extra arguments bypasses resolution
and rendering entirely — for every formatting function, a gate-passing
no-argument call emits the message verbatim as its only effect, even when
the message contains `%` sequences; and for every format string with no
conversion sequences, `render(s, []) = s` with no effects. -/
theorem claim9_no_arg_bypass_and_render_identity :
    (∀ (fmt : String → List Arg → Except String String × List Effect)
       (lg : LoggerState) (lvl : Nat) (s : String),
        lg.level ≤ lvl →
        (lg.handlers.any fun h => decide (h ≤ lvl)) = true →
        logCallWith fmt lg lvl s [] = [Effect.emit lvl s []])
    ∧ (∀ s : String, (∀ c ∈ s.data, c ≠ '%') → renderModel s [] = (s, [])) := by
  constructor
  · intro fmt lg lvl s hlv hh
    have h1 : ¬ lvl < lg.level := Nat.not_lt.mpr hlv
    simp [logCallWith, h1, hh]
  · intro s hs
    unfold renderModel
    rw [parse_no_pct s hs]
    simp [resolveArgs, renderToks]

/-- Witness for C9: `Progress: 50%% complete` with zero arguments is emitted
unchanged, and a conversion-free string renders to itself. -/
theorem claim9_witness :
    logCallWith sprintfFmt ⟨levelDebug, [levelDebug]⟩ levelInfo
        "Progress: 50%% complete" [] =
      [Effect.emit levelInfo "Progress: 50%% complete" []]
    ∧ renderModel "hello world" [] = ("hello world", []) :=
  ⟨claim9_no_arg_bypass_and_render_identity.1 sprintfFmt ⟨levelDebug, [levelDebug]⟩
      levelInfo "Progress: 50%% complete" (by decide) (by decide),
   claim9_no_arg_bypass_and_render_identity.2 "hello world" (by decide)⟩

/-- Every work item has positive fuel weight. -/
theorem localWeight_pos (inp : SerIn) : 1 ≤ localWeight inp := by
  cases inp <;> simp [localWeight]

/-- Removing a pending node splits off its weight. -/
theorem gsize_erase (g : List (List (String × GVal))) (allowed : List Nat)
    (j : Nat) (hj : j ∈ allowed) :
    gsize g allowed = nodeWeight g j + gsize g (allowed.erase j) := by
  unfold gsize
  have hperm := List.perm_cons_erase hj
  have hsum := (hperm.map (nodeWeight g)).sum_eq
  simpa using hsum

/-- The serializer's `[Circular]` markers count exactly the back-edges of
the walk, at every fuel. -/
theorem serF_count_circ :
    ∀ (fuel : Nat) (g : List (List (String × GVal))) (allowed : List Nat)
      (inp : SerIn),
      (serF fuel g allowed inp).count JTok.circ = beF fuel g allowed inp := by
  intro fuel
  induction fuel with
  | zero => intro g allowed inp; rfl
  | succ fuel ih =>
    intro g allowed inp
    cases inp with
    | val v =>
      cases v with
      | str s => simp [serF, beF]
      | num n => simp [serF, beF]
      | ref j =>
        by_cases hj : j ∈ allowed
        · cases hg : g[j]? with
          | none => simp [serF, beF, hj, hg]
          | some nd =>
            simp [serF, beF, hj, hg, List.count_cons, List.count_append, ih]
        · simp [serF, beF, hj]
    | flds fs first =>
      cases fs with
      | nil => simp [serF, beF]
      | cons kv rest =>
        obtain ⟨k, v⟩ := kv
        cases first <;>
          simp [serF, beF, List.count_append, List.count_cons, ih]

/-- Fuel sufficiency: with fuel at least the weight of the pending nodes
plus the current work item, the walk never hits the fuel-exhaustion
marker — the visited-set serialization terminates. -/
theorem serF_no_truncated :
    ∀ (fuel : Nat) (g : List (List (String × GVal))) (allowed : List Nat)
      (inp : SerIn),
      gsize g allowed + localWeight inp ≤ fuel →
      JTok.truncated ∉ serF fuel g allowed inp := by
  intro fuel
  induction fuel with
  | zero =>
    intro g allowed inp hle
    have := localWeight_pos inp
    omega
  | succ fuel ih =>
    intro g allowed inp hle
    cases inp with
    | val v =>
      cases v with
      | str s => simp [serF]
      | num n => simp [serF]
      | ref j =>
        by_cases hj : j ∈ allowed
        · cases hg : g[j]? with
          | none => simp [serF, hj, hg]
          | some nd =>
            have hsum := gsize_erase g allowed j hj
            have hw : nodeWeight g j = 2 + 2 * nd.length := by
              simp [nodeWeight, hg]
            rw [hw] at hsum
            have hrec : gsize g (allowed.erase j)
                + localWeight (SerIn.flds nd true) ≤ fuel := by
              simp only [localWeight] at hle ⊢
              omega
            have hmem := ih g (allowed.erase j) (SerIn.flds nd true) hrec
            simp [serF, hj, hg, hmem]
        · simp [serF, hj]
    | flds fs first =>
      cases fs with
      | nil => simp [serF]
      | cons kv rest =>
        obtain ⟨k, v⟩ := kv
        simp only [localWeight, List.length_cons] at hle
        have h1 : gsize g allowed + localWeight (SerIn.val v) ≤ fuel := by
          simp only [localWeight]
          omega
        have h2 : gsize g allowed + localWeight (SerIn.flds rest false) ≤ fuel := by
          simp only [localWeight]
          omega
        have hm1 := ih g allowed (SerIn.val v) h1
        have hm2 := ih g allowed (SerIn.flds rest false) h2
        cases first <;> simp [serF, hm1, hm2]

/-- C8: for every object graph and root — self-referential and
mutually-referential ones included — the `%j` serialization walk terminates
(it never exhausts its fuel bound, so every node's non-back-edge content is
reached and serialized), and its output contains exactly one `[Circular]`
marker per back-edge of the walk. -/
theorem claim8_circular_termination_and_markers
    (g : List (List (String × GVal))) (root : Nat) :
    JTok.truncated ∉ serTokens g root ∧
      (serTokens g root).count JTok.circ = backEdges g root := by
  constructor
  · apply serF_no_truncated
    simp [localWeight]
  · exact serF_count_circ _ g _ _

/-- The self-referential object of `tests/format.test.ts` "format %j:
handles circular references": serialization completes with one marker. -/
theorem serializeGraph_selfref_example :
    serializeGraph [[("name", GVal.str "root"), ("value", GVal.num 42),
        ("self", GVal.ref 0)]] 0 =
      "\x7b\"name\":\"root\",\"value\":42,\"self\":\"[Circular]\"\x7d"
    ∧ backEdges [[("name", GVal.str "root"), ("value", GVal.num 42),
        ("self", GVal.ref 0)]] 0 = 1 := by
  constructor <;> rfl

/-- A wrapper differs from the method it captured. -/
theorem wrapped_ne_self (lvl : Nat) (m : MethodImpl) :
    MethodImpl.wrapped lvl m ≠ m := by
  intro h
  have hs := congrArg sizeOf h
  simp at hs

/-- A concrete logger object with its five substrate methods in place. -/
def sampleLoggerObj : LoggerObj :=
  ⟨levelDebug, [levelInfo],
   MethodImpl.base levelDebug, MethodImpl.base levelInfo,
   MethodImpl.base levelWarn, MethodImpl.base levelError,
   MethodImpl.base levelCritical⟩

/-- Counterexample to C10: on a concrete logger object, `wrapLogger` does
not leave the wrapped object's severity entries unchanged — the claim that
wrapping never mutates the method table is false. -/
theorem claim10_counterexample :
    ¬ ((wrapLogger sampleLoggerObj).debugM = sampleLoggerObj.debugM ∧
       (wrapLogger sampleLoggerObj).infoM = sampleLoggerObj.infoM ∧
       (wrapLogger sampleLoggerObj).warnM = sampleLoggerObj.warnM ∧
       (wrapLogger sampleLoggerObj).errorM = sampleLoggerObj.errorM ∧
       (wrapLogger sampleLoggerObj).criticalM = sampleLoggerObj.criticalM) := by
  decide

/-- C10 (amended): `wrapLogger` installs its severity methods by assignment
onto the same underlying logger object, mutating its method table in place:
every severity entry becomes a wrapper that captured the previous bound
method (so each entry changes), while the object's level and handler list
are untouched. -/
theorem claim10_wrap_replaces_methods_in_place (lg : LoggerObj) :
    ((wrapLogger lg).debugM = MethodImpl.wrapped levelDebug lg.debugM ∧
     (wrapLogger lg).infoM = MethodImpl.wrapped levelInfo lg.infoM ∧
     (wrapLogger lg).warnM = MethodImpl.wrapped levelWarn lg.warnM ∧
     (wrapLogger lg).errorM = MethodImpl.wrapped levelError lg.errorM ∧
     (wrapLogger lg).criticalM = MethodImpl.wrapped levelCritical lg.criticalM) ∧
    ((wrapLogger lg).level = lg.level ∧ (wrapLogger lg).handlers = lg.handlers) ∧
    ((wrapLogger lg).debugM ≠ lg.debugM ∧
     (wrapLogger lg).infoM ≠ lg.infoM ∧
     (wrapLogger lg).warnM ≠ lg.warnM ∧
     (wrapLogger lg).errorM ≠ lg.errorM ∧
     (wrapLogger lg).criticalM ≠ lg.criticalM) :=
  ⟨⟨rfl, rfl, rfl, rfl, rfl⟩, ⟨rfl, rfl⟩,
   wrapped_ne_self _ _, wrapped_ne_self _ _, wrapped_ne_self _ _,
   wrapped_ne_self _ _, wrapped_ne_self _ _⟩

end LoggingTS
